import Mathlib

/-!
Shallow embedding of `src/AI_Folder-main/ai-directory-management/src/utils/file_operations.py`.

The Python module is a flat set of utility functions over the filesystem.  We
embed the pieces with decision logic — the extension classifier
(`categorize_file`), the batch organizer (`organize_files` together with
`move_file` and `log_operation`), the chunked hashing (`hash_file`), the
duplicate detector (`find_duplicates`), and the watch-mode handler
(`DirectoryEventHandler.organize_file`) — as pure functions over explicit
state:

* a filesystem interaction is represented by the data the Python code reads
  from it (directory listings, file contents as byte lists, existence flags)
  and by the mutations it performs (recorded in an `OrgState`);
* Python exceptions raised to the caller are `Except.error`; a function that
  catches all exceptions internally is total;
* the `logging` channel is a pair of string lists (`infoLog`, `errLog`) and
  the `operations.log` sink is a list of structured entries (`opLog`);
* the MD5 digest is abstracted by a parameter `digest : List Nat → String`
  applied to the byte sequence absorbed by the incremental hasher (MD5's
  `update`/`hexdigest` interface makes the digest a function of exactly the
  concatenation of all updated chunks, which is what the model keeps).
-/

namespace AIDir

/-! Path helpers, modeled from CPython `posixpath` (the platform the code
runs on): `os.path.splitext`, `os.path.join`, `os.path.basename`. -/

/-- Index of the last occurrence of `c` in `l`, starting the count at `i`
with current best `best`; models `str.rfind` which returns `-1` when the
character does not occur. -/
def lastIdxAux (c : Char) : List Char → Nat → Int → Int
  | [], _, best => best
  | x :: xs, i, best => lastIdxAux c xs (i + 1) (if x = c then Int.ofNat i else best)

/-- Python `p.rfind(c)`: last index of `c` in `l`, or `-1`. -/
def lastIdx (c : Char) (l : List Char) : Int :=
  lastIdxAux c l 0 (-1)

/-- CPython `posixpath.splitext`: split at the last dot of the last path
component, except that leading dots of the component never start an
extension (`".bashrc"` has no extension). -/
def splitext (p : String) : String × String :=
  let l := p.data
  let sepIndex := lastIdx '/' l
  let dotIndex := lastIdx '.' l
  if sepIndex < dotIndex then
    let start := (sepIndex + 1).toNat
    let mid := (l.drop start).take (dotIndex.toNat - start)
    if mid.any (fun ch => ch ≠ '.') then
      (String.mk (l.take dotIndex.toNat), String.mk (l.drop dotIndex.toNat))
    else (p, "")
  else (p, "")

/-- CPython `posixpath.basename`: everything after the last slash. -/
def basename (p : String) : String :=
  String.mk (p.data.drop ((lastIdx '/' p.data) + 1).toNat)

/-- CPython `posixpath.join` for two components: an absolute second
component replaces the first; otherwise the parts are glued with a slash
unless the first is empty or already ends in one. -/
def pathJoin (a b : String) : String :=
  if b.data.take 1 = ['/'] then b
  else if a.data = [] ∨ a.data.getLast? = some '/' then a ++ b
  else a ++ "/" ++ b

/-- Python `str.lower()` on extensions: per-character lowercasing.  (Lean's
`String.toLower` is the same character map; this formulation reduces in the
kernel.) -/
def lower (s : String) : String :=
  String.mk (s.data.map Char.toLower)

/-- Classifier, `file_operations.py` lines 89-96: split off the extension,
lowercase it, return the first category whose extension list contains it,
falling back to `"Others"`.  The Python `dict` is embedded as an association
list preserving its iteration (insertion) order. -/
def categorize_file (file_name : String) (categories : List (String × List String)) : String :=
  let ext := lower (splitext file_name).2
  match categories.find? (fun c => c.2.contains ext) with
  | some c => c.1
  | none => "Others"

/-! Chunked hashing, `file_operations.py` lines 122-134.  `hash_file` reads
the file in 8192-byte chunks (`f.read(8192)` until the read is empty) and
feeds each chunk to the incremental hasher; the final digest is a function
of the concatenation of all absorbed chunks. -/

/-- Chunk loop with explicit fuel: every iteration of
`while chunk := f.read(8192)` consumes at least one byte, so `l.length`
units of fuel always suffice to finish the loop. -/
def readChunksFuel : Nat → List Nat → List (List Nat)
  | 0, _ => []
  | n + 1, l => if l = [] then [] else l.take 8192 :: readChunksFuel n (l.drop 8192)

/-- Sequence of chunks produced by `while chunk := f.read(8192)` on a file
whose full content is `l`. -/
def readChunks (l : List Nat) : List (List Nat) :=
  readChunksFuel l.length l

/-- Byte sequence absorbed by the incremental hasher after the chunk loop:
each `hasher.update(chunk)` appends the chunk to the absorbed stream. -/
def absorbed (chunks : List (List Nat)) : List Nat :=
  chunks.foldl (fun acc c => acc ++ c) []

/-- Digest computed by `hash_file`'s streaming loop: the digest function
applied to the bytes absorbed chunk by chunk. -/
def digestVia (digest : List Nat → String) (content : List Nat) : String :=
  digest (absorbed (readChunks content))

/-! Organizer state.  `OrgState` records the observable effects of the
Python code: existing directories, the `operations.log` sink, the two
logging channels, and the moves actually performed. -/

/-- Entry written by `log_operation` (`file_operations.py` lines 216-223):
one JSON object per line with an operation name and a string-to-string
details mapping. -/
structure LogEntry where
  operation : String
  details : List (String × String)
deriving DecidableEq

/-- Observable state mutated by the organizer functions. -/
structure OrgState where
  dirs : List String
  opLog : List LogEntry
  infoLog : List String
  errLog : List String
  moved : List (String × String)
deriving DecidableEq

/-- Appends one structured entry to `operations.log`
(`file_operations.py` lines 216-223). -/
def log_operation (st : OrgState) (operation : String) (details : List (String × String)) : OrgState :=
  { st with opLog := st.opLog ++ [⟨operation, details⟩] }

/-- Outcome of the underlying `shutil.move` call: the environment decides,
per (source, target) pair, whether the move raises.  `moveFails` abstracts
the filesystem conditions (permissions, missing file, ...) that make
`shutil.move` raise. -/
def shutilMove (moveFails : String → String → Bool) (sourcePath targetPath : String) :
    Except String Unit :=
  if moveFails sourcePath targetPath then .error ("move failed")
  else .ok ()

/-- Error lines logged by `move_file`'s `except` branch
(`file_operations.py` lines 24-27). -/
def moveErrorLines (sourcePath targetPath e : String) : List String :=
  ["Error moving " ++ sourcePath ++ " to " ++ targetPath ++ ": " ++ e,
   "Source path: " ++ sourcePath ++ ", Target path: " ++ targetPath,
   "Exception details: " ++ e]

/-- The `move_file` function (`file_operations.py` lines 18-27): performs
`shutil.move`, then on success logs an info line and appends a `move` entry
to the operations log; any exception is caught and turned into error log
lines.  The function is total: no exception escapes the `try`/`except`. -/
def move_file (moveFails : String → String → Bool) (st : OrgState)
    (sourcePath targetPath : String) : OrgState :=
  match shutilMove moveFails sourcePath targetPath with
  | .error e =>
      { st with errLog := st.errLog ++ moveErrorLines sourcePath targetPath e }
  | .ok _ =>
      let st := { st with
        moved := st.moved ++ [(sourcePath, targetPath)],
        infoLog := st.infoLog ++ ["Moved " ++ sourcePath ++ " to " ++ targetPath] }
      log_operation st "move" [("source", sourcePath), ("target", targetPath)]

/-- Metadata dictionary built per file (`file_operations.py` lines 110-114
and 238-242). -/
structure FileMetadata where
  name : String
  size : Nat
  type : String
deriving DecidableEq

/-- One entry of `os.listdir(source_dir)` together with what the code reads
about it: whether `os.path.isfile` holds, its size, and the MIME guess
(`None` when `mimetypes.guess_type` has no answer). -/
structure Entry where
  name : String
  isFile : Bool
  size : Nat
  mime : Option String
deriving DecidableEq

/-- Metadata built from a listing entry, with the
`or 'application/octet-stream'` default of line 113. -/
def mkMetadata (e : Entry) : FileMetadata :=
  ⟨e.name, e.size, e.mime.getD "application/octet-stream"⟩

/-- Loop body of `organize_files` (`file_operations.py` lines 107-119).
The classification model may raise (`Except.error`), in which case the
exception propagates: nothing catches it inside `organize_files`. -/
def orgStep (model : FileMetadata → Except String String)
    (moveFails : String → String → Bool) (sourceDir targetDir : String)
    (st : OrgState) (e : Entry) : Except String OrgState :=
  if e.isFile then do
    let category ← model (mkMetadata e)
    let targetFolder := pathJoin targetDir category
    let st := if st.dirs.contains targetFolder then st
              else { st with dirs := st.dirs ++ [targetFolder] }
    pure (move_file moveFails st (pathJoin sourceDir e.name) (pathJoin targetFolder e.name))
  else pure st

/-- The `organize_files` function (`file_operations.py` lines 98-120).  A
missing source directory is logged and the function returns normally (the
Python `return` on line 102); otherwise the target directory is created if
absent and every listing entry is processed in order.  An exception from
`model.predict_category` propagates as `Except.error`. -/
def organize_files (model : FileMetadata → Except String String)
    (moveFails : String → String → Bool) (sourceDir targetDir : String)
    (listing : List Entry) (st : OrgState) : Except String OrgState :=
  if !(st.dirs.contains sourceDir) then
    .ok { st with errLog := st.errLog ++
            ["Source directory " ++ sourceDir ++ " does not exist."] }
  else do
    let stf ← listing.foldlM (orgStep model moveFails sourceDir targetDir)
      (if st.dirs.contains targetDir then st
       else { st with dirs := st.dirs ++ [targetDir] })
    pure { stf with infoLog := stf.infoLog ++ ["File organization completed."] }

/-- The watch-mode handler `DirectoryEventHandler.organize_file`
(`file_operations.py` lines 236-257): builds metadata for the created file,
asks the model for a category (outside any `try`: an exception propagates),
creates the category folder when absent (a failure there is caught and ends
the handler), and calls `move_file` (which cannot raise, so the surrounding
`try` of lines 254-257 never fires). -/
def DirectoryEventHandler_organize_file (model : FileMetadata → Except String String)
    (moveFails : String → String → Bool) (mkdirFails : String → Bool)
    (targetDirectory : String) (st : OrgState)
    (filePath : String) (size : Nat) (mime : Option String) : Except String OrgState := do
  let fileName := basename filePath
  let category ← model ⟨fileName, size, mime.getD "application/octet-stream"⟩
  let targetFolder := pathJoin targetDirectory category
  if st.dirs.contains targetFolder then
    let st := { st with infoLog := st.infoLog ++ ["Directory already exists: " ++ targetFolder] }
    pure (move_file moveFails st filePath (pathJoin targetFolder fileName))
  else if mkdirFails targetFolder then
    pure { st with errLog := st.errLog ++ ["Error creating directory " ++ targetFolder] }
  else
    let st := { st with
      dirs := st.dirs ++ [targetFolder],
      infoLog := st.infoLog ++ ["Created directory: " ++ targetFolder] }
    pure (move_file moveFails st filePath (pathJoin targetFolder fileName))

/-! Duplicate detection, `file_operations.py` lines 136-160, on top of
`hash_file` (lines 122-134).  A directory is embedded as its walk: the
ordered list of file paths with their content, `none` meaning the file
becomes unreadable (the `except` branch of `hash_file`, which returns
`None`). -/

/-- Directory as seen by `os.walk`: an existence flag and the files in
discovery order.  `none` content means reading the file raises, so
`hash_file` returns `None` for it. -/
structure DupFS where
  present : Bool
  files : List (String × Option (List Nat))
deriving DecidableEq

/-- Result of `hash_file` for one file: `none` when reading raised,
otherwise the digest of the streamed content (`digestVia`). -/
def hash_file (digest : List Nat → String) (content : Option (List Nat)) : Option String :=
  content.map (digestVia digest)

/-- Python truthiness of `file_hash` in `if file_hash:` (line 149): `None`
and the empty string are falsy. -/
def truthy : Option String → Bool
  | none => false
  | some s => !(s == "")

/-- Core loop of `find_duplicates` (lines 145-153) over the hashed walk:
`index` is the `file_hashes` dict as an insertion-ordered association list,
`dups` the `duplicates` list. -/
def dupScanAux (index : List (String × String)) (dups : List (String × String)) :
    List (String × Option String) → List (String × String) × List (String × String)
  | [] => (index, dups)
  | (p, oh) :: rest =>
    match oh with
    | none => dupScanAux index dups rest
    | some h =>
      if h = "" then dupScanAux index dups rest
      else
        match index.lookup h with
        | some first => dupScanAux index (dups ++ [(p, first)]) rest
        | none => dupScanAux (index ++ [(h, p)]) dups rest

/-- Entry point of the scan: empty `file_hashes` and `duplicates`. -/
def dupScan (entries : List (String × Option String)) :
    List (String × String) × List (String × String) :=
  dupScanAux [] [] entries

/-- The walk paired with each file's `hash_file` result. -/
def entriesOf (digest : List Nat → String) (fs : DupFS) : List (String × Option String) :=
  fs.files.map (fun f => (f.1, hash_file digest f.2))

/-- Observable outcome of `find_duplicates`.  `result` is the Python return
value: the bare `return` on line 140 and falling off the end both yield
`None`, so it is `none` on every path — the report is only logged. -/
structure DupOutput where
  result : Option (List (String × String))
  index : List (String × String)
  dups : List (String × String)
  infoLog : List String
  errLog : List String
deriving DecidableEq

/-- The `find_duplicates` function (`file_operations.py` lines 136-160):
checks existence, hashes every file in walk order, maintains the
first-seen index and the duplicates list, and logs the report.  The
function never returns the report (`result := none`). -/
def find_duplicates (digest : List Nat → String) (directory : String) (fs : DupFS) : DupOutput :=
  if !fs.present then
    ⟨none, [], [], [], ["Directory " ++ directory ++ " does not exist."]⟩
  else
    let entries := entriesOf digest fs
    let scanned := dupScan entries
    let hashInfo := fs.files.filterMap (fun f =>
      (hash_file digest f.2).map (fun h => "Hash for file " ++ f.1 ++ ": " ++ h))
    let readErrs := fs.files.filterMap (fun f =>
      if f.2.isNone then some ("Error reading file " ++ f.1) else none)
    let summary :=
      if scanned.2.isEmpty then ["No duplicate files found."]
      else "Duplicate files found:" ::
        scanned.2.map (fun d => "Duplicate: " ++ d.1 ++ " and " ++ d.2)
    ⟨none, scanned.1, scanned.2, hashInfo ++ summary, readErrs⟩

/-! Specification-side definitions, used only to state refinement claims;
they follow the spec's words, not the code. -/

/-- Spec notion "the first path seen with that hash" over a walk segment:
scans the whole segment for the first file whose (truthy) hash is `h`. -/
def specFirstSeen (h : String) (entries : List (String × Option String)) : Option String :=
  if h = "" then none
  else (entries.find? (fun e => e.2 == some h)).map Prod.fst

/-- Spec duplicates relative to an already-seen segment: a file whose hash
already occurs in the seen segment is reported against the first such path,
in discovery order. -/
def specDupsAux (seen : List (String × Option String)) :
    List (String × Option String) → List (String × String)
  | [] => []
  | (p, oh) :: rest =>
    match oh with
    | none => specDupsAux (seen ++ [(p, oh)]) rest
    | some h =>
      match specFirstSeen h seen with
      | some first => (p, first) :: specDupsAux (seen ++ [(p, some h)]) rest
      | none => specDupsAux (seen ++ [(p, some h)]) rest

/-- Spec duplicate report of a walk. -/
def specDups (entries : List (String × Option String)) : List (String × String) :=
  specDupsAux [] entries

/-! Helper lemmas. -/

lemma foldl_append_acc (L : List (List Nat)) :
    ∀ acc : List Nat, L.foldl (fun a c => a ++ c) acc = acc ++ L.flatten := by
  induction L with
  | nil => intro acc; simp
  | cons x xs ih =>
      intro acc
      rw [List.foldl_cons, ih, List.flatten_cons, List.append_assoc]

lemma readChunksFuel_flatten :
    ∀ (n : Nat) (l : List Nat), l.length ≤ n → (readChunksFuel n l).flatten = l := by
  intro n
  induction n with
  | zero =>
    intro l hl
    have hnil : l = [] := List.eq_nil_of_length_eq_zero (Nat.le_zero.mp hl)
    simp [readChunksFuel, hnil]
  | succ n ih =>
    intro l hl
    by_cases h : l = []
    · simp [readChunksFuel, h]
    · have hpos : 0 < l.length := List.length_pos.mpr h
      have hbound : (l.drop 8192).length ≤ n := by
        simp only [List.length_drop]
        omega
      simp only [readChunksFuel]
      rw [if_neg h, List.flatten_cons, ih (l.drop 8192) hbound, List.take_append_drop]

lemma readChunks_flatten (l : List Nat) : (readChunks l).flatten = l :=
  readChunksFuel_flatten l.length l (Nat.le_refl _)

lemma find_duplicates_present (digest : List Nat → String) (directory : String)
    (fs : DupFS) (hp : fs.present = true) :
    find_duplicates digest directory fs =
      ⟨none, (dupScan (entriesOf digest fs)).1, (dupScan (entriesOf digest fs)).2,
        (fs.files.filterMap (fun f =>
          (hash_file digest f.2).map (fun h => "Hash for file " ++ f.1 ++ ": " ++ h))) ++
        (if (dupScan (entriesOf digest fs)).2.isEmpty then ["No duplicate files found."]
         else "Duplicate files found:" ::
           (dupScan (entriesOf digest fs)).2.map
             (fun d => "Duplicate: " ++ d.1 ++ " and " ++ d.2)),
        fs.files.filterMap (fun f =>
          if f.2.isNone then some ("Error reading file " ++ f.1) else none)⟩ := by
  unfold find_duplicates
  rw [hp]
  rfl

lemma specFirstSeen_nil (h : String) :
    specFirstSeen h ([] : List (String × Option String)) = none := by
  simp [specFirstSeen]

lemma specFirstSeen_snoc (h : String) (seen : List (String × Option String))
    (p : String) (oh : Option String) :
    specFirstSeen h (seen ++ [(p, oh)]) =
      (specFirstSeen h seen).or
        (if h ≠ "" ∧ oh = some h then some p else none) := by
  unfold specFirstSeen
  by_cases hh : h = ""
  · simp [hh]
  · rw [if_neg hh, if_neg hh, List.find?_append]
    cases hfind : seen.find? (fun e => e.2 == some h) with
    | some x => simp
    | none =>
      cases oh with
      | none => simp [hh]
      | some s =>
        by_cases hs : s = h
        · subst hs; simp [hh]
        · simp [hh, hs]

lemma dupScanAux_spec :
    ∀ (rest : List (String × Option String)) (index dups : List (String × String))
      (seen : List (String × Option String)),
      (∀ h, index.lookup h = specFirstSeen h seen) →
      (∀ h, (dupScanAux index dups rest).1.lookup h = specFirstSeen h (seen ++ rest)) ∧
      (dupScanAux index dups rest).2 = dups ++ specDupsAux seen rest := by
  intro rest
  induction rest with
  | nil =>
    intro index dups seen hinv
    exact ⟨fun h => by rw [List.append_nil]; exact hinv h, by simp [dupScanAux, specDupsAux]⟩
  | cons e rest ih =>
    rcases e with ⟨p, oh⟩
    intro index dups seen hinv
    have hseen : seen ++ (p, oh) :: rest = (seen ++ [(p, oh)]) ++ rest :=
      List.append_cons seen (p, oh) rest
    cases oh with
    | none =>
      have hinv' : ∀ h, index.lookup h = specFirstSeen h (seen ++ [(p, none)]) := by
        intro h
        rw [specFirstSeen_snoc, hinv h]
        simp
      have hrec := ih index dups (seen ++ [(p, none)]) hinv'
      exact ⟨fun h => by rw [hseen]; exact hrec.1 h, hrec.2⟩
    | some hv =>
      by_cases hv0 : hv = ""
      · subst hv0
        have hinv' : ∀ h, index.lookup h = specFirstSeen h (seen ++ [(p, some "")]) := by
          intro h
          rw [specFirstSeen_snoc, hinv h]
          by_cases hh : h = ""
          · simp [hh]
          · have h2 : ¬("" = h) := fun q => hh q.symm
            simp [hh, h2, Option.or_none]
        have hrec := ih index dups (seen ++ [(p, some "")]) hinv'
        exact ⟨fun h => by rw [hseen]; exact hrec.1 h, hrec.2⟩
      · cases hl : index.lookup hv with
        | some first =>
          have hfs : specFirstSeen hv seen = some first := by rw [← hinv hv]; exact hl
          have hred : dupScanAux index dups ((p, some hv) :: rest) =
              dupScanAux index (dups ++ [(p, first)]) rest := by
            simp only [dupScanAux, hl]
            rw [if_neg hv0]
          have hspec : specDupsAux seen ((p, some hv) :: rest) =
              (p, first) :: specDupsAux (seen ++ [(p, some hv)]) rest := by
            simp only [specDupsAux, hfs]
          have hinv' : ∀ h, index.lookup h = specFirstSeen h (seen ++ [(p, some hv)]) := by
            intro h
            rw [specFirstSeen_snoc, hinv h]
            by_cases hh : h = hv
            · subst hh; rw [hfs]; simp
            · have : ¬(hv = h) := fun q => hh q.symm
              simp [hh, this]
          have hrec := ih index (dups ++ [(p, first)]) (seen ++ [(p, some hv)]) hinv'
          refine ⟨fun h => ?_, ?_⟩
          · rw [hseen, hred]; exact hrec.1 h
          · rw [hred, hspec, hrec.2, List.append_assoc, List.singleton_append]
        | none =>
          have hfs : specFirstSeen hv seen = none := by rw [← hinv hv]; exact hl
          have hred : dupScanAux index dups ((p, some hv) :: rest) =
              dupScanAux (index ++ [(hv, p)]) dups rest := by
            simp only [dupScanAux, hl]
            rw [if_neg hv0]
          have hspec : specDupsAux seen ((p, some hv) :: rest) =
              specDupsAux (seen ++ [(p, some hv)]) rest := by
            simp only [specDupsAux, hfs]
          have hinv' : ∀ h, (index ++ [(hv, p)]).lookup h =
              specFirstSeen h (seen ++ [(p, some hv)]) := by
            intro h
            rw [List.lookup_append, specFirstSeen_snoc, hinv h]
            by_cases hh : h = hv
            · subst hh
              rw [hfs]
              simp [hv0]
            · have hvh : ¬(hv = h) := fun q => hh q.symm
              have hbeq : (h == hv) = false := by simp [hh]
              simp [List.lookup, hbeq, hvh, Option.or_none]
          have hrec := ih (index ++ [(hv, p)]) dups (seen ++ [(p, some hv)]) hinv'
          refine ⟨fun h => ?_, ?_⟩
          · rw [hseen, hred]; exact hrec.1 h
          · rw [hred, hspec, hrec.2]

lemma dupScanAux_cons_some (index dups : List (String × String)) (p s : String)
    (hs : s ≠ "") (tail : List (String × Option String)) :
    dupScanAux index dups ((p, some s) :: tail) =
      match index.lookup s with
      | some first => dupScanAux index (dups ++ [(p, first)]) tail
      | none => dupScanAux (index ++ [(s, p)]) dups tail := by
  simp only [dupScanAux]
  rw [if_neg hs]

lemma dupScanAux_filter :
    ∀ (rest : List (String × Option String)) (index dups : List (String × String)),
      dupScanAux index dups (rest.filter (fun e => truthy e.2)) =
        dupScanAux index dups rest := by
  intro rest
  induction rest with
  | nil => intro _ _; rfl
  | cons e rest ih =>
    rcases e with ⟨p, oh⟩
    intro index dups
    cases oh with
    | none =>
      simpa [List.filter_cons, truthy] using ih index dups
    | some s =>
      by_cases hs : s = ""
      · subst hs
        simpa [List.filter_cons, truthy] using ih index dups
      · rw [List.filter_cons, if_pos (by simp [truthy, hs])]
        have hstep : ∀ tail : List (String × Option String),
            dupScanAux index dups ((p, some s) :: tail) =
              match index.lookup s with
              | some first => dupScanAux index (dups ++ [(p, first)]) tail
              | none => dupScanAux (index ++ [(s, p)]) dups tail := by
          intro tail
          simp only [dupScanAux]
          rw [if_neg hs]
        rw [hstep, hstep]
        cases index.lookup s with
        | some first => exact ih index (dups ++ [(p, first)])
        | none => exact ih (index ++ [(s, p)]) dups

lemma key_unique {β : Type} :
    ∀ l : List (String × β), (l.map Prod.fst).Nodup →
      ∀ (a : String) (b₁ b₂ : β), (a, b₁) ∈ l → (a, b₂) ∈ l → b₁ = b₂ := by
  intro l
  induction l with
  | nil => intro _ a b₁ b₂ h1; exact absurd h1 (List.not_mem_nil (a, b₁))
  | cons x xs ih =>
    intro hnd a b₁ b₂ h1 h2
    rw [List.map_cons, List.nodup_cons] at hnd
    rcases List.mem_cons.mp h1 with h1 | h1 <;> rcases List.mem_cons.mp h2 with h2 | h2
    · rw [← h1] at h2
      exact (congrArg Prod.snd h2).symm
    · exfalso
      apply hnd.1
      have ha : a = x.1 := congrArg Prod.fst h1
      have hmem2 : a ∈ xs.map Prod.fst := by simpa using List.mem_map_of_mem Prod.fst h2
      rw [← ha]
      exact hmem2
    · exfalso
      apply hnd.1
      have ha : a = x.1 := congrArg Prod.fst h2
      have hmem1 : a ∈ xs.map Prod.fst := by simpa using List.mem_map_of_mem Prod.fst h1
      rw [← ha]
      exact hmem1
    · exact ih hnd.2 a b₁ b₂ h1 h2

lemma lookup_mem_values {l : List (String × String)} {a b : String}
    (h : l.lookup a = some b) : b ∈ l.map Prod.snd := by
  rw [List.lookup_eq_some_iff] at h
  obtain ⟨l₁, l₂, rfl, _⟩ := h
  simp

lemma dupScanAux_dups_from :
    ∀ (rest : List (String × Option String)) (index dups : List (String × String))
      (pr : String × String), pr ∈ (dupScanAux index dups rest).2 →
      pr ∈ dups ∨ (pr.1 ∈ rest.map Prod.fst ∧
        (pr.2 ∈ index.map Prod.snd ∨ pr.2 ∈ rest.map Prod.fst)) := by
  intro rest
  induction rest with
  | nil => intro index dups pr h; left; exact h
  | cons e rest ih =>
    rcases e with ⟨p, oh⟩
    intro index dups pr hmem
    have lift : pr ∈ dups ∨ (pr.1 ∈ rest.map Prod.fst ∧
        (pr.2 ∈ index.map Prod.snd ∨ pr.2 ∈ rest.map Prod.fst)) →
        pr ∈ dups ∨ (pr.1 ∈ ((p, oh) :: rest).map Prod.fst ∧
        (pr.2 ∈ index.map Prod.snd ∨ pr.2 ∈ ((p, oh) :: rest).map Prod.fst)) := by
      rintro (hd | ⟨ha, hb⟩)
      · exact Or.inl hd
      · exact Or.inr ⟨List.mem_cons_of_mem _ ha, hb.imp id (List.mem_cons_of_mem _)⟩
    cases oh with
    | none => exact lift (ih index dups pr hmem)
    | some s =>
      by_cases hs : s = ""
      · subst hs; exact lift (ih index dups pr hmem)
      · have hstep : ∀ tail : List (String × Option String),
            dupScanAux index dups ((p, some s) :: tail) =
              match index.lookup s with
              | some first => dupScanAux index (dups ++ [(p, first)]) tail
              | none => dupScanAux (index ++ [(s, p)]) dups tail := by
          intro tail
          simp only [dupScanAux]
          rw [if_neg hs]
        rw [hstep] at hmem
        cases hl : index.lookup s with
        | some first =>
          rw [hl] at hmem
          rcases ih index (dups ++ [(p, first)]) pr hmem with hd | ⟨ha, hb⟩
          · rcases List.mem_append.mp hd with hd | hd
            · exact Or.inl hd
            · have hpr : pr = (p, first) := by simpa using hd
              subst hpr
              refine Or.inr ⟨List.mem_cons_self _ _, Or.inl ?_⟩
              exact lookup_mem_values hl
          · exact lift (Or.inr ⟨ha, hb⟩)
        | none =>
          rw [hl] at hmem
          rcases ih (index ++ [(s, p)]) dups pr hmem with hd | ⟨ha, hb⟩
          · exact Or.inl hd
          · refine Or.inr ⟨List.mem_cons_of_mem _ ha, ?_⟩
            rcases hb with hb | hb
            · rw [List.map_append, List.mem_append] at hb
              rcases hb with hb | hb
              · exact Or.inl hb
              · have : pr.2 = p := by simpa using hb
                exact Or.inr (this ▸ List.mem_cons_self _ _)
            · exact Or.inr (List.mem_cons_of_mem _ hb)

lemma dupScanAux_index_from :
    ∀ (rest : List (String × Option String)) (index dups : List (String × String))
      (he : String × String), he ∈ (dupScanAux index dups rest).1 →
      he ∈ index ∨ he.2 ∈ rest.map Prod.fst := by
  intro rest
  induction rest with
  | nil => intro index dups he h; left; exact h
  | cons e rest ih =>
    rcases e with ⟨p, oh⟩
    intro index dups he hmem
    have lift : he ∈ index ∨ he.2 ∈ rest.map Prod.fst →
        he ∈ index ∨ he.2 ∈ ((p, oh) :: rest).map Prod.fst := by
      rintro (hd | hd)
      · exact Or.inl hd
      · exact Or.inr (List.mem_cons_of_mem _ hd)
    cases oh with
    | none => exact lift (ih index dups he hmem)
    | some s =>
      by_cases hs : s = ""
      · subst hs; exact lift (ih index dups he hmem)
      · have hstep : ∀ tail : List (String × Option String),
            dupScanAux index dups ((p, some s) :: tail) =
              match index.lookup s with
              | some first => dupScanAux index (dups ++ [(p, first)]) tail
              | none => dupScanAux (index ++ [(s, p)]) dups tail := by
          intro tail
          simp only [dupScanAux]
          rw [if_neg hs]
        rw [hstep] at hmem
        cases hl : index.lookup s with
        | some first =>
          rw [hl] at hmem
          exact lift (ih index (dups ++ [(p, first)]) he hmem)
        | none =>
          rw [hl] at hmem
          rcases ih (index ++ [(s, p)]) dups he hmem with hd | hd
          · rcases List.mem_append.mp hd with hd | hd
            · exact Or.inl hd
            · have : he = (s, p) := by simpa using hd
              exact Or.inr (this ▸ List.mem_cons_self _ _)
          · exact Or.inr (List.mem_cons_of_mem _ hd)

lemma exceptBind_ok {α β : Type} (a : α) (k : α → Except String β) :
    (Except.ok a >>= k) = k a := rfl

lemma exceptBind_error {α β : Type} (e : String) (k : α → Except String β) :
    ((Except.error e : Except String α) >>= k) = Except.error e := rfl

lemma org_loop_error (model : FileMetadata → Except String String)
    (moveFails : String → String → Bool) (sourceDir targetDir : String)
    (bad : Entry) (post : List Entry) (err : String)
    (hbad : bad.isFile = true) (herr : model (mkMetadata bad) = Except.error err) :
    ∀ pre : List Entry,
      (∀ f ∈ pre, f.isFile = true → ∃ c, model (mkMetadata f) = Except.ok c) →
      ∀ st : OrgState,
        (pre ++ bad :: post).foldlM (orgStep model moveFails sourceDir targetDir) st =
          Except.error err := by
  intro pre
  induction pre with
  | nil =>
    intro _ st
    rw [List.nil_append, List.foldlM_cons]
    have hstep : orgStep model moveFails sourceDir targetDir st bad = Except.error err := by
      simp [orgStep, hbad, herr]
    rw [hstep, exceptBind_error]
  | cons f fs ih =>
    intro hpre st
    rw [List.cons_append, List.foldlM_cons]
    by_cases hif : f.isFile = true
    · obtain ⟨c, hc⟩ := hpre f (List.mem_cons_self f fs) hif
      have hstep : orgStep model moveFails sourceDir targetDir st f =
          Except.ok (move_file moveFails
            (if st.dirs.contains (pathJoin targetDir c) then st
             else { st with dirs := st.dirs ++ [pathJoin targetDir c] })
            (pathJoin sourceDir f.name) (pathJoin (pathJoin targetDir c) f.name)) := by
        simp [orgStep, hif, hc]
      rw [hstep, exceptBind_ok]
      exact ih (fun g hg => hpre g (List.mem_cons_of_mem f hg)) _
    · have hstep : orgStep model moveFails sourceDir targetDir st f = Except.ok st := by
        simp only [orgStep, hif]
        rfl
      rw [hstep, exceptBind_ok]
      exact ih (fun g hg => hpre g (List.mem_cons_of_mem f hg)) st

/-- Spec rendering of the relocations a batch run performs: every regular
file of the listing whose move does not fail is relocated to
`target_dir/<category>/<name>`, independent of the other files' moves. -/
def specMoves (moveFails : String → String → Bool) (catf : Entry → String)
    (sourceDir targetDir : String) (listing : List Entry) : List (String × String) :=
  listing.filterMap (fun e =>
    if e.isFile then
      if moveFails (pathJoin sourceDir e.name) (pathJoin (pathJoin targetDir (catf e)) e.name)
      then none
      else some (pathJoin sourceDir e.name, pathJoin (pathJoin targetDir (catf e)) e.name)
    else none)

/-- Spec rendering of the error records of a batch run: one block of error
lines per regular file whose move fails. -/
def specMoveErrors (moveFails : String → String → Bool) (catf : Entry → String)
    (sourceDir targetDir : String) (listing : List Entry) : List String :=
  (listing.filterMap (fun e =>
    if e.isFile then
      if moveFails (pathJoin sourceDir e.name) (pathJoin (pathJoin targetDir (catf e)) e.name)
      then some (moveErrorLines (pathJoin sourceDir e.name)
        (pathJoin (pathJoin targetDir (catf e)) e.name) "move failed")
      else none
    else none)).flatten

lemma move_file_moved (moveFails : String → String → Bool) (st : OrgState)
    (sp tp : String) :
    (move_file moveFails st sp tp).moved =
      st.moved ++ (if moveFails sp tp then [] else [(sp, tp)]) := by
  by_cases hfail : moveFails sp tp <;> simp [move_file, shutilMove, log_operation, hfail]

lemma move_file_errLog (moveFails : String → String → Bool) (st : OrgState)
    (sp tp : String) :
    (move_file moveFails st sp tp).errLog =
      st.errLog ++ (if moveFails sp tp then moveErrorLines sp tp "move failed" else []) := by
  by_cases hfail : moveFails sp tp <;> simp [move_file, shutilMove, log_operation, hfail]

lemma org_loop_ok (model : FileMetadata → Except String String)
    (moveFails : String → String → Bool) (catf : Entry → String)
    (sourceDir targetDir : String) :
    ∀ listing : List Entry,
      (∀ e ∈ listing, e.isFile = true → model (mkMetadata e) = Except.ok (catf e)) →
      ∀ st : OrgState, ∃ st' : OrgState,
        listing.foldlM (orgStep model moveFails sourceDir targetDir) st = Except.ok st' ∧
        st'.moved = st.moved ++ specMoves moveFails catf sourceDir targetDir listing ∧
        st'.errLog = st.errLog ++ specMoveErrors moveFails catf sourceDir targetDir listing := by
  intro listing
  induction listing with
  | nil =>
    intro _ st
    exact ⟨st, rfl, by simp [specMoves], by simp [specMoveErrors]⟩
  | cons e rest ih =>
    intro hmodel st
    by_cases hif : e.isFile = true
    · have hm := hmodel e (List.mem_cons_self e rest) hif
      have hstep : orgStep model moveFails sourceDir targetDir st e =
          Except.ok (move_file moveFails
            (if st.dirs.contains (pathJoin targetDir (catf e)) then st
             else { st with dirs := st.dirs ++ [pathJoin targetDir (catf e)] })
            (pathJoin sourceDir e.name) (pathJoin (pathJoin targetDir (catf e)) e.name)) := by
        simp [orgStep, hif, hm]
      rw [List.foldlM_cons, hstep, exceptBind_ok]
      obtain ⟨st', h1, h2, h3⟩ :=
        ih (fun g hg => hmodel g (List.mem_cons_of_mem e hg)) (move_file moveFails
          (if st.dirs.contains (pathJoin targetDir (catf e)) then st
           else { st with dirs := st.dirs ++ [pathJoin targetDir (catf e)] })
          (pathJoin sourceDir e.name) (pathJoin (pathJoin targetDir (catf e)) e.name))
      have hdirs_moved : (if st.dirs.contains (pathJoin targetDir (catf e)) then st
          else { st with dirs := st.dirs ++ [pathJoin targetDir (catf e)] }).moved
            = st.moved := by
        split <;> rfl
      have hdirs_err : (if st.dirs.contains (pathJoin targetDir (catf e)) then st
          else { st with dirs := st.dirs ++ [pathJoin targetDir (catf e)] }).errLog
            = st.errLog := by
        split <;> rfl
      refine ⟨st', h1, ?_, ?_⟩
      · rw [h2, move_file_moved, hdirs_moved]
        by_cases hfail : moveFails (pathJoin sourceDir e.name)
            (pathJoin (pathJoin targetDir (catf e)) e.name) <;>
          simp [specMoves, List.filterMap_cons, hif, hfail]
      · rw [h3, move_file_errLog, hdirs_err]
        by_cases hfail : moveFails (pathJoin sourceDir e.name)
            (pathJoin (pathJoin targetDir (catf e)) e.name) <;>
          simp [specMoveErrors, List.filterMap_cons, hif, hfail]
    · have hstep : orgStep model moveFails sourceDir targetDir st e = Except.ok st := by
        simp only [orgStep, hif]
        rfl
      rw [List.foldlM_cons, hstep, exceptBind_ok]
      obtain ⟨st', h1, h2, h3⟩ := ih (fun g hg => hmodel g (List.mem_cons_of_mem e hg)) st
      refine ⟨st', h1, ?_, ?_⟩
      · rw [h2]; simp [specMoves, List.filterMap_cons, hif]
      · rw [h3]; simp [specMoveErrors, List.filterMap_cons, hif]

/-! Claim theorems. -/

/-- C7: `hash_file` streams the content in fixed-size 8192-byte chunks and
updates the hasher incrementally; the byte sequence absorbed by the hasher
is exactly the whole content, so the resulting digest equals the digest of
the entire content hashed in one pass, for every digest function (in the
source, MD5's hex-encoded 128-bit digest, which is a function of the
absorbed byte sequence). -/
theorem claim_C7 (digest : List Nat → String) (content : List Nat) :
    digestVia digest content = digest content := by
  unfold digestVia absorbed
  rw [foldl_append_acc, readChunks_flatten, List.nil_append]

/-- C3: for every file name and rules mapping, `categorize_file` returns
one label that is a key of the rules mapping or the fallback `"Others"`,
and when no category's extension list contains the lowercased extension the
result is exactly `"Others"`. -/
theorem claim_C3 (file_name : String) (categories : List (String × List String)) :
    (categorize_file file_name categories = "Others" ∨
      categorize_file file_name categories ∈ categories.map Prod.fst) ∧
    ((∀ c ∈ categories, lower (splitext file_name).2 ∉ c.2) →
      categorize_file file_name categories = "Others") := by
  have hgoal : categorize_file file_name categories =
      match categories.find? (fun c => c.2.contains (lower (splitext file_name).2)) with
      | some c => c.1
      | none => "Others" := rfl
  constructor
  · rcases hf : categories.find? (fun c => c.2.contains (lower (splitext file_name).2))
      with _ | c
    · left; rw [hgoal, hf]
    · right
      have hmem := List.mem_of_find?_eq_some hf
      rw [hgoal, hf]
      exact List.mem_map_of_mem Prod.fst hmem
  · intro hno
    have hf : categories.find? (fun c => c.2.contains (lower (splitext file_name).2))
        = none := by
      rw [List.find?_eq_none]
      intro c hc
      simpa using hno c hc
    rw [hgoal, hf]

/-- C3 witness: a file with an unmatched extension lands in `"Others"`. -/
theorem claim_C3_witness :
    categorize_file "c.bin" [("images", [".png", ".jpg"]), ("docs", [".txt"])] = "Others" :=
  (claim_C3 "c.bin" [("images", [".png", ".jpg"]), ("docs", [".txt"])]).2 (by decide)

/-- C9: the classifier's output depends only on the case-insensitively
compared extension split off by `splitext`: two names with equal lowercased
extensions classify identically under every rules mapping (and
`categorize_file` takes neither a size nor a MIME type, so the result is
independent of both). -/
theorem claim_C9 (n₁ n₂ : String) (categories : List (String × List String))
    (h : lower (splitext n₁).2 = lower (splitext n₂).2) :
    categorize_file n₁ categories = categorize_file n₂ categories := by
  unfold categorize_file
  rw [h]

/-- C9 witness: an upper-case and a lower-case name with the same extension
classify identically. -/
theorem claim_C9_witness :
    lower (splitext "Report.PDF").2 = lower (splitext "photo.pdf").2 ∧
    categorize_file "Report.PDF" [("docs", [".pdf"])] =
      categorize_file "photo.pdf" [("docs", [".pdf"])] :=
  ⟨by decide, claim_C9 "Report.PDF" "photo.pdf" [("docs", [".pdf"])] (by decide)⟩

/-- C1 counterexample: the claim says a non-existent `source_dir` makes
`organize_files` fail with a `NotFoundError` reported to the caller; in the
code (lines 100-102) the missing source is only logged and the function
returns normally (`None`), so no error outcome reaches the caller. -/
theorem claim_C1_counterexample :
    ¬ ∃ e, organize_files (fun _ => Except.ok "Others") (fun _ _ => false)
        "missing" "dst" [] ⟨[], [], [], [], []⟩ = Except.error e := by
  rintro ⟨e, he⟩
  simp [organize_files] at he

/-- C1 amended: for every non-existent `source_dir`, `organize_files`
reports the missing directory through the error-logging channel and returns
normally, performing zero filesystem mutations: no directory creation, no
moves, and no operation-log entries. -/
theorem claim_C1_amended (model : FileMetadata → Except String String)
    (moveFails : String → String → Bool) (sourceDir targetDir : String)
    (listing : List Entry) (st : OrgState)
    (h : st.dirs.contains sourceDir = false) :
    organize_files model moveFails sourceDir targetDir listing st =
      Except.ok { st with errLog := st.errLog ++
        ["Source directory " ++ sourceDir ++ " does not exist."] } := by
  have h' : (st.dirs.contains sourceDir) = false := h
  unfold organize_files
  rw [h']
  rfl

/-- C1 witness: a concrete missing source directory with a non-empty
listing still yields no mutation, only the error log line. -/
theorem claim_C1_witness :
    ((⟨[], [], [], [], []⟩ : OrgState).dirs.contains "missing" = false) ∧
    organize_files (fun _ => Except.ok "Others") (fun _ _ => false) "missing" "dst"
        [⟨"a.txt", true, 1, none⟩] ⟨[], [], [], [], []⟩ =
      Except.ok ⟨[], [], [], ["Source directory missing does not exist."], []⟩ :=
  ⟨rfl, claim_C1_amended (fun _ => Except.ok "Others") (fun _ _ => false) "missing" "dst"
    [⟨"a.txt", true, 1, none⟩] ⟨[], [], [], [], []⟩ rfl⟩

/-- C2 counterexample: the claim says `find_duplicates` returns the
duplicate report to its caller; in the code the report is only logged — the
bare `return` on line 140 and falling off the end both return `None` — so
on the concrete two-identical-files directory the returned value is not the
report.  (The digest stand-in is irrelevant: the return value is `none` for
every digest.) -/
theorem claim_C2_counterexample :
    (find_duplicates (fun bs => toString bs.length) "d"
        ⟨true, [("d/x.txt", some [104, 101, 108, 108, 111]),
                ("d/y.txt", some [104, 101, 108, 108, 111])]⟩).result ≠
      some [("d/y.txt", "d/x.txt")] :=
  fun h => Option.noConfusion h

/-- C2 amended: for a directory holding two files with identical content
(walked first `px`, then `py`), `find_duplicates` computes the full
duplicate report after the walk — exactly the single pair `(py, px)` — and
emits it through the log channel, while its return value is `None`. -/
theorem claim_C2_amended (digest : List Nat → String) (directory px py : String)
    (c : List Nat) (hne : digestVia digest c ≠ "") :
    (find_duplicates digest directory ⟨true, [(px, some c), (py, some c)]⟩).dups
        = [(py, px)] ∧
    (find_duplicates digest directory ⟨true, [(px, some c), (py, some c)]⟩).result
        = none ∧
    ("Duplicate: " ++ py ++ " and " ++ px) ∈
      (find_duplicates digest directory ⟨true, [(px, some c), (py, some c)]⟩).infoLog := by
  have hent : entriesOf digest ⟨true, [(px, some c), (py, some c)]⟩ =
      [(px, some (digestVia digest c)), (py, some (digestVia digest c))] := rfl
  have h1 : dupScanAux [] [] [(px, some (digestVia digest c)),
      (py, some (digestVia digest c))] =
      dupScanAux [(digestVia digest c, px)] [] [(py, some (digestVia digest c))] := by
    rw [dupScanAux_cons_some [] [] px (digestVia digest c) hne]
    rfl
  have h2 : dupScanAux [(digestVia digest c, px)] [] [(py, some (digestVia digest c))] =
      ([(digestVia digest c, px)], [(py, px)]) := by
    rw [dupScanAux_cons_some [(digestVia digest c, px)] [] py (digestVia digest c) hne,
      List.lookup_cons_self]
    rfl
  have hdup : dupScan (entriesOf digest ⟨true, [(px, some c), (py, some c)]⟩) =
      ([(digestVia digest c, px)], [(py, px)]) := by
    rw [hent]
    exact h1.trans h2
  rw [find_duplicates_present digest directory _ rfl]
  refine ⟨?_, rfl, ?_⟩
  · simp [hdup]
  · simp [hdup]

/-- C2 witness: a concrete run over two identical five-byte files reports
the later file as a duplicate of the earlier one. -/
theorem claim_C2_witness :
    (digestVia (fun bs => toString bs.length) [104, 101, 108, 108, 111] ≠ "") ∧
    (find_duplicates (fun bs => toString bs.length) "d"
        ⟨true, [("d/x.txt", some [104, 101, 108, 108, 111]),
                ("d/y.txt", some [104, 101, 108, 108, 111])]⟩).dups =
      [("d/y.txt", "d/x.txt")] :=
  ⟨by decide, (claim_C2_amended (fun bs => toString bs.length) "d" "d/x.txt" "d/y.txt"
      [104, 101, 108, 108, 111] (by decide)).1⟩

/-- C4: over any walk, the fingerprint index built by `find_duplicates`
maps each hash to the first path seen with that hash, and the duplicate
report pairs every later file carrying an already-seen hash with that first
path — never with another later duplicate — in discovery order (the
specification-side `specDups` scans each file against its whole seen
segment and emits pairs in walk order). -/
theorem claim_C4 (digest : List Nat → String) (directory : String) (fs : DupFS)
    (hp : fs.present = true) :
    (∀ h, (find_duplicates digest directory fs).index.lookup h =
        specFirstSeen h (entriesOf digest fs)) ∧
    (find_duplicates digest directory fs).dups = specDups (entriesOf digest fs) := by
  have base : ∀ h, ([] : List (String × String)).lookup h =
      specFirstSeen h ([] : List (String × Option String)) := by
    intro h
    rw [specFirstSeen_nil]
    rfl
  have main := dupScanAux_spec (entriesOf digest fs) [] [] [] base
  rw [find_duplicates_present digest directory fs hp]
  constructor
  · intro h
    have hlook := main.1 h
    rw [List.nil_append] at hlook
    exact hlook
  · have hdups := main.2
    rw [List.nil_append] at hdups
    exact hdups

/-- C4 witness: on a concrete three-file walk with one collision the index
and report match their first-seen specifications. -/
theorem claim_C4_witness :
    ((find_duplicates (fun bs => toString bs.length) "d"
        ⟨true, [("d/x.txt", some [1, 2]), ("d/y.txt", some [1, 2]),
                ("d/z.txt", some [9])]⟩).dups =
      specDups (entriesOf (fun bs => toString bs.length)
        ⟨true, [("d/x.txt", some [1, 2]), ("d/y.txt", some [1, 2]),
                ("d/z.txt", some [9])]⟩)) ∧
    ((find_duplicates (fun bs => toString bs.length) "d"
        ⟨true, [("d/x.txt", some [1, 2]), ("d/y.txt", some [1, 2]),
                ("d/z.txt", some [9])]⟩).index.lookup "2" =
      specFirstSeen "2" (entriesOf (fun bs => toString bs.length)
        ⟨true, [("d/x.txt", some [1, 2]), ("d/y.txt", some [1, 2]),
                ("d/z.txt", some [9])]⟩)) :=
  ⟨(claim_C4 (fun bs => toString bs.length) "d"
      ⟨true, [("d/x.txt", some [1, 2]), ("d/y.txt", some [1, 2]),
              ("d/z.txt", some [9])]⟩ rfl).2,
   (claim_C4 (fun bs => toString bs.length) "d"
      ⟨true, [("d/x.txt", some [1, 2]), ("d/y.txt", some [1, 2]),
              ("d/z.txt", some [9])]⟩ rfl).1 "2"⟩

/-- C8: a file that becomes unreadable mid-stream (its `hash_file` call
returns `None`) is reported only as an error: it is never inserted into the
fingerprint index and never appears on either side of a duplicate pair, and
the scan over the remaining files proceeds exactly as if the unreadable
file were absent (the scan of the truthy-hash files equals the full
scan). -/
theorem claim_C8 (digest : List Nat → String) (directory : String) (fs : DupFS)
    (p : String) (hp : fs.present = true) (hmem : (p, none) ∈ fs.files)
    (hnd : (fs.files.map Prod.fst).Nodup) :
    ("Error reading file " ++ p) ∈ (find_duplicates digest directory fs).errLog ∧
    (∀ pr ∈ (find_duplicates digest directory fs).dups, pr.1 ≠ p ∧ pr.2 ≠ p) ∧
    (∀ he ∈ (find_duplicates digest directory fs).index, he.2 ≠ p) ∧
    dupScan (entriesOf digest fs) =
      dupScan ((entriesOf digest fs).filter (fun e => truthy e.2)) := by
  have hfa : (entriesOf digest fs).map Prod.fst = fs.files.map Prod.fst := by
    simp [entriesOf]
  have hpent : (p, none) ∈ entriesOf digest fs := by
    refine List.mem_map.mpr ⟨(p, none), hmem, ?_⟩
    simp [hash_file]
  have hnd' : ((entriesOf digest fs).map Prod.fst).Nodup := by
    rw [hfa]; exact hnd
  have hnotin : p ∉ ((entriesOf digest fs).filter (fun e => truthy e.2)).map Prod.fst := by
    intro hin
    obtain ⟨e, hein, hfst⟩ := List.mem_map.mp hin
    rcases e with ⟨e1, e2⟩
    have he1 : e1 = p := hfst
    subst he1
    have hef := List.mem_filter.mp hein
    have hkey : e2 = none := key_unique (entriesOf digest fs) hnd' e1 e2 none hef.1 hpent
    have htr := hef.2
    rw [hkey] at htr
    simp [truthy] at htr
  have hfilterscan : dupScan (entriesOf digest fs) =
      dupScan ((entriesOf digest fs).filter (fun e => truthy e.2)) :=
    (dupScanAux_filter (entriesOf digest fs) [] []).symm
  rw [find_duplicates_present digest directory fs hp]
  refine ⟨?_, ?_, ?_, hfilterscan⟩
  · exact List.mem_filterMap.mpr ⟨(p, none), hmem, by simp⟩
  · intro pr hpr
    have hpr' : pr ∈ (dupScanAux [] []
        ((entriesOf digest fs).filter (fun e => truthy e.2))).2 := by
      rw [dupScanAux_filter]
      exact hpr
    rcases dupScanAux_dups_from _ [] [] pr hpr' with hd | ⟨hfirst, hsecond⟩
    · exact absurd hd (List.not_mem_nil pr)
    · constructor
      · intro hq; rw [hq] at hfirst; exact hnotin hfirst
      · rcases hsecond with hsec | hsec
        · simp at hsec
        · intro hq; rw [hq] at hsec; exact hnotin hsec
  · intro he hhe
    have hhe' : he ∈ (dupScanAux [] []
        ((entriesOf digest fs).filter (fun e => truthy e.2))).1 := by
      rw [dupScanAux_filter]
      exact hhe
    rcases dupScanAux_index_from _ [] [] he hhe' with hd | hd
    · exact absurd hd (List.not_mem_nil he)
    · intro hq; rw [hq] at hd; exact hnotin hd

/-- C8 witness: with the middle file unreadable, it is error-logged, stays
out of the index and out of every duplicate pair, and the two identical
readable files are still paired. -/
theorem claim_C8_witness :
    ("Error reading file " ++ "d/bad") ∈
      (find_duplicates (fun bs => toString bs.length) "d"
        ⟨true, [("d/x.txt", some [1]), ("d/bad", none),
                ("d/y.txt", some [1])]⟩).errLog ∧
    (∀ pr ∈ (find_duplicates (fun bs => toString bs.length) "d"
        ⟨true, [("d/x.txt", some [1]), ("d/bad", none),
                ("d/y.txt", some [1])]⟩).dups, pr.1 ≠ "d/bad" ∧ pr.2 ≠ "d/bad") ∧
    (∀ he ∈ (find_duplicates (fun bs => toString bs.length) "d"
        ⟨true, [("d/x.txt", some [1]), ("d/bad", none),
                ("d/y.txt", some [1])]⟩).index, he.2 ≠ "d/bad") ∧
    dupScan (entriesOf (fun bs => toString bs.length)
        ⟨true, [("d/x.txt", some [1]), ("d/bad", none), ("d/y.txt", some [1])]⟩) =
      dupScan ((entriesOf (fun bs => toString bs.length)
        ⟨true, [("d/x.txt", some [1]), ("d/bad", none),
                ("d/y.txt", some [1])]⟩).filter (fun e => truthy e.2)) :=
  claim_C8 (fun bs => toString bs.length) "d"
    ⟨true, [("d/x.txt", some [1]), ("d/bad", none), ("d/y.txt", some [1])]⟩
    "d/bad" rfl (by simp) (by decide)

/-- C5: when the classification model's `predict_category` raises for some
file, the error propagates to the caller of `organize_files` (nothing
inside it catches the exception: earlier files may already have been
processed, but the run ends with the model's error, never with the file
mapped to the fallback `"Others"`), and likewise out of the watch-mode
handler `DirectoryEventHandler.organize_file` (the model call on line 243
is outside every `try`). -/
theorem claim_C5 :
    (∀ (model : FileMetadata → Except String String) (moveFails : String → String → Bool)
        (sourceDir targetDir : String) (pre : List Entry) (bad : Entry) (post : List Entry)
        (err : String) (st : OrgState),
        st.dirs.contains sourceDir = true →
        (∀ f ∈ pre, f.isFile = true → ∃ c, model (mkMetadata f) = Except.ok c) →
        bad.isFile = true → model (mkMetadata bad) = Except.error err →
        organize_files model moveFails sourceDir targetDir (pre ++ bad :: post) st =
          Except.error err) ∧
    (∀ (model : FileMetadata → Except String String) (moveFails : String → String → Bool)
        (mkdirFails : String → Bool) (targetDirectory : String) (st : OrgState)
        (filePath : String) (size : Nat) (mime : Option String) (err : String),
        model ⟨basename filePath, size, mime.getD "application/octet-stream"⟩ =
          Except.error err →
        DirectoryEventHandler_organize_file model moveFails mkdirFails targetDirectory st
          filePath size mime = Except.error err) := by
  constructor
  · intro model moveFails sourceDir targetDir pre bad post err st hsrc hpre hbad herr
    unfold organize_files
    rw [hsrc, Bool.not_true, if_neg Bool.false_ne_true]
    rw [org_loop_error model moveFails sourceDir targetDir bad post err hbad herr pre hpre]
    rfl
  · intro model moveFails mkdirFails targetDirectory st filePath size mime err herr
    simp only [DirectoryEventHandler_organize_file]
    rw [herr, exceptBind_error]

/-- C5 witness: a model that raises makes both the batch organizer and the
watch handler end with that error. -/
theorem claim_C5_witness :
    organize_files (fun _ => Except.error "model broke") (fun _ _ => false) "src" "dst"
        [⟨"a.txt", true, 1, none⟩] ⟨["src"], [], [], [], []⟩ =
      Except.error "model broke" ∧
    DirectoryEventHandler_organize_file (fun _ => Except.error "model broke")
        (fun _ _ => false) (fun _ => false) "dst" ⟨["src"], [], [], [], []⟩
        "src/new.txt" 1 none = Except.error "model broke" :=
  ⟨claim_C5.1 (fun _ => Except.error "model broke") (fun _ _ => false) "src" "dst"
      [] ⟨"a.txt", true, 1, none⟩ [] "model broke" ⟨["src"], [], [], [], []⟩
      rfl (by simp) rfl rfl,
   claim_C5.2 (fun _ => Except.error "model broke") (fun _ _ => false) (fun _ => false)
      "dst" ⟨["src"], [], [], [], []⟩ "src/new.txt" 1 none "model broke" rfl⟩

/-- C6: when every file of the listing classifies successfully, the batch
run completes normally whatever moves fail: each failing move only adds its
error-log lines, and every other file of the listing — before or after a
failure — is still classified and relocated (the moves performed are
exactly the per-file expected moves, independent of other files'
failures). -/
theorem claim_C6 (model : FileMetadata → Except String String)
    (moveFails : String → String → Bool) (catf : Entry → String)
    (sourceDir targetDir : String) (listing : List Entry) (st : OrgState)
    (hsrc : st.dirs.contains sourceDir = true)
    (hmodel : ∀ e ∈ listing, e.isFile = true → model (mkMetadata e) = Except.ok (catf e)) :
    ∃ st' : OrgState,
      organize_files model moveFails sourceDir targetDir listing st = Except.ok st' ∧
      st'.moved = st.moved ++ specMoves moveFails catf sourceDir targetDir listing ∧
      st'.errLog = st.errLog ++ specMoveErrors moveFails catf sourceDir targetDir listing := by
  unfold organize_files
  rw [hsrc, Bool.not_true, if_neg Bool.false_ne_true]
  have hmoved1 : (if st.dirs.contains targetDir then st
      else { st with dirs := st.dirs ++ [targetDir] }).moved = st.moved := by
    split <;> rfl
  have herr1 : (if st.dirs.contains targetDir then st
      else { st with dirs := st.dirs ++ [targetDir] }).errLog = st.errLog := by
    split <;> rfl
  obtain ⟨st', h1, h2, h3⟩ := org_loop_ok model moveFails catf sourceDir targetDir
    listing hmodel (if st.dirs.contains targetDir then st
      else { st with dirs := st.dirs ++ [targetDir] })
  refine ⟨{ st' with infoLog := st'.infoLog ++ ["File organization completed."] }, ?_, ?_, ?_⟩
  · rw [h1, exceptBind_ok]; rfl
  · rw [h2, hmoved1]
  · rw [h3, herr1]

/-- C6 witness: with the middle file's move failing, the first and third
files are still relocated and the failure is recorded. -/
theorem claim_C6_witness :
    ∃ st' : OrgState,
      organize_files
        (fun md => Except.ok (categorize_file md.name [("images", [".png"])]))
        (fun sp _ => sp == "src/b.txt") "src" "dst"
        [⟨"a.png", true, 3, none⟩, ⟨"b.txt", true, 1, none⟩, ⟨"c.png", true, 2, none⟩]
        ⟨["src"], [], [], [], []⟩ = Except.ok st' ∧
      st'.moved = [("src/a.png", "dst/images/a.png"), ("src/c.png", "dst/images/c.png")] ∧
      st'.errLog = moveErrorLines "src/b.txt" "dst/Others/b.txt" "move failed" :=
  claim_C6 (fun md => Except.ok (categorize_file md.name [("images", [".png"])]))
    (fun sp _ => sp == "src/b.txt")
    (fun e => categorize_file e.name [("images", [".png"])]) "src" "dst"
    [⟨"a.png", true, 3, none⟩, ⟨"b.txt", true, 1, none⟩, ⟨"c.png", true, 2, none⟩]
    ⟨["src"], [], [], [], []⟩ rfl
    (by intro e he _; simp only [List.mem_cons, List.not_mem_nil, or_false] at he
        rcases he with rfl | rfl | rfl <;> rfl)

/-- C10: `move_file` is a total function (its `try`/`except Exception`
catches every failure of the underlying move, so no exception reaches its
caller), and it appends exactly one `move` entry to the operations log when
the underlying move succeeds and appends nothing to it when the move
fails. -/
theorem claim_C10 (moveFails : String → String → Bool) (st : OrgState)
    (sourcePath targetPath : String) :
    (move_file moveFails st sourcePath targetPath).opLog =
      if moveFails sourcePath targetPath then st.opLog
      else st.opLog ++ [⟨"move", [("source", sourcePath), ("target", targetPath)]⟩] := by
  by_cases h : moveFails sourcePath targetPath <;>
    simp [move_file, shutilMove, log_operation, h]

end AIDir
